import Mathlib

/-!
Verification development for the Bish front end (src/src/Parser.cpp): a
tokenizer and a recursive-descent parser producing an IR `Module`.

The tokenizer and parser are translated line by line from Parser.cpp.
The C++ classes that Parser.cpp only uses (Token, the IR node classes,
SymbolTable, Module, Function) are not part of the given sources; those
are modelled from the specification document, as marked on each.

Modelling conventions:
  - `std::string` indexing `text[i]` is modelled by `List.getD i '\x00'`:
    C++ guarantees `text[size()] == '\0'`; reads beyond that are out of
    bounds, which the model totalises to '\x00' as well (the theorems
    about `scan_until(char)` make the out-of-bounds reads explicit).
  - heap allocation of `Variable` nodes (pointer identity) is modelled by
    a counter in the parser state: each `new Variable` receives the next
    id, and looked-up occurrences reuse the stored node, so two IR
    occurrences are "the same object" exactly when their ids are equal.
  - `abort` (which calls `exit(1)`) is modelled by `Except.error` carrying
    the message `abort` prints; `expect` prepends "Parsing error: " and
    the position, exactly as the C++ does.
  - the C++ loops that can fail to terminate (`scan_until`, the parser's
    recursion) take explicit fuel; fuel exhaustion is the distinguished
    error `out_of_fuel_msg`, never produced by any terminating C++ path.
-/

namespace Bish

/-- From Parser.cpp: `is_newline`. -/
def is_newline (c : Char) : Bool := c = '\n'

/-- From Parser.cpp: `is_whitespace`. -/
def is_whitespace (c : Char) : Bool := c = ' ' || c = '\t' || is_newline c

/-- From Parser.cpp: `is_digit` (0x30..0x39). -/
def is_digit (c : Char) : Bool := 0x30 ≤ c.toNat && c.toNat ≤ 0x39

/-- From Parser.cpp: `is_paren`. -/
def is_paren (c : Char) : Bool := c = '(' || c = ')'

/-- From Parser.cpp: `is_brace`. -/
def is_brace (c : Char) : Bool := c = '\x7b' || c = '\x7d'

/-- From Parser.cpp: `is_alphanumeric` (digits, A-Z, a-z). -/
def is_alphanumeric (c : Char) : Bool :=
  is_digit c || (0x41 ≤ c.toNat && c.toNat ≤ 0x5a) || (0x61 ≤ c.toNat && c.toNat ≤ 0x7a)

/-- Modelled from the spec: the tag of a `Token` (Token.h is not among the
given sources; the tags are those Parser.cpp uses). -/
inductive TokenType where
  | EOSType | LParenType | RParenType | LBraceType | RBraceType
  | AtType | DollarType | SharpType | SemicolonType | CommaType
  | EqualsType | DoubleEqualsType | PlusType | MinusType | StarType | SlashType
  | QuoteType | IntType | FractionalType | SymbolType | IfType | DefType
  deriving DecidableEq, Repr

/-- Modelled from the spec: a `Token` is a tag plus an optional literal
payload (empty for the fixed tokens). -/
structure Token where
  ty : TokenType
  value : String
  deriving DecidableEq, Repr

/-- `Token::isa(type)`. -/
def Token.isa (t : Token) (ty : TokenType) : Bool := t.ty = ty

/-- Modelled from the spec: the static factory `Token::EOS()`. -/
def Token.EOS : Token := ⟨.EOSType, ""⟩
/-- Modelled from the spec: `Token::LParen()`. -/
def Token.LParen : Token := ⟨.LParenType, "("⟩
/-- Modelled from the spec: `Token::RParen()`. -/
def Token.RParen : Token := ⟨.RParenType, ")"⟩
/-- Modelled from the spec: `Token::LBrace()`. -/
def Token.LBrace : Token := ⟨.LBraceType, "\x7b"⟩
/-- Modelled from the spec: `Token::RBrace()`. -/
def Token.RBrace : Token := ⟨.RBraceType, "\x7d"⟩
/-- Modelled from the spec: `Token::At()`. -/
def Token.At : Token := ⟨.AtType, "@"⟩
/-- Modelled from the spec: `Token::Dollar()`. -/
def Token.Dollar : Token := ⟨.DollarType, "$"⟩
/-- Modelled from the spec: `Token::Sharp()`. -/
def Token.Sharp : Token := ⟨.SharpType, "#"⟩
/-- Modelled from the spec: `Token::Semicolon()`. -/
def Token.Semicolon : Token := ⟨.SemicolonType, ";"⟩
/-- Modelled from the spec: `Token::Comma()`. -/
def Token.Comma : Token := ⟨.CommaType, ","⟩
/-- Modelled from the spec: `Token::Equals()`. -/
def Token.Equals : Token := ⟨.EqualsType, "="⟩
/-- Modelled from the spec: `Token::DoubleEquals()`. -/
def Token.DoubleEquals : Token := ⟨.DoubleEqualsType, "=="⟩
/-- Modelled from the spec: `Token::Plus()`. -/
def Token.Plus : Token := ⟨.PlusType, "+"⟩
/-- Modelled from the spec: `Token::Minus()`. -/
def Token.Minus : Token := ⟨.MinusType, "-"⟩
/-- Modelled from the spec: `Token::Star()`. -/
def Token.Star : Token := ⟨.StarType, "*"⟩
/-- Modelled from the spec: `Token::Slash()`. -/
def Token.Slash : Token := ⟨.SlashType, "/"⟩
/-- Modelled from the spec: `Token::Quote()`. -/
def Token.Quote : Token := ⟨.QuoteType, "\""⟩
/-- Modelled from the spec: `Token::Int(s)`. -/
def Token.Int (s : String) : Token := ⟨.IntType, s⟩
/-- Modelled from the spec: `Token::Fractional(s)`. -/
def Token.Fractional (s : String) : Token := ⟨.FractionalType, s⟩
/-- Modelled from the spec: `Token::Symbol(s)`. -/
def Token.Symbol (s : String) : Token := ⟨.SymbolType, s⟩
/-- Modelled from the spec: `Token::If()`; its value is the keyword itself. -/
def Token.If : Token := ⟨.IfType, "if"⟩
/-- Modelled from the spec: `Token::Def()`; its value is the keyword itself. -/
def Token.Def : Token := ⟨.DefType, "def"⟩

/-- The `Tokenizer` object state: the text, the current index, and the
current line number. -/
structure Tokenizer where
  text : List Char
  idx : Nat
  lineno : Nat
  deriving DecidableEq, Repr

namespace Tokenizer

/-- `Tokenizer::curchar`: `text[idx]` (C++ operator[] yields the '\0'
terminator at `idx = size()`; beyond that the read is out of bounds and
the model totalises it to '\x00'). -/
def curchar (t : Tokenizer) : Char := t.text.getD t.idx '\x00'

/-- `Tokenizer::nextchar`: `text[idx + 1]`. -/
def nextchar (t : Tokenizer) : Char := t.text.getD (t.idx + 1) '\x00'

/-- `Tokenizer::eos`: `idx >= text.length()`. -/
def eos (t : Tokenizer) : Bool := t.text.length ≤ t.idx

/-- The loop body of `Tokenizer::skip_whitespace`, made structural on the
number of characters left (the loop advances `idx` by one per iteration and
stops at end of string, so `text.length - idx` iterations always suffice). -/
def skipWSAux : Nat → Tokenizer → Tokenizer
  | 0, t => t
  | n + 1, t =>
    if ¬ t.eos ∧ is_whitespace t.curchar then
      skipWSAux n { t with idx := t.idx + 1,
                           lineno := if is_newline t.curchar then t.lineno + 1 else t.lineno }
    else t

/-- `Tokenizer::skip_whitespace`: skip to the next non-whitespace character,
counting newlines into `lineno`. -/
def skip_whitespace (t : Tokenizer) : Tokenizer := skipWSAux (t.text.length - t.idx) t

/-- The digit-collecting loop of `Tokenizer::read_number`
(`while (is_digit(text[newidx])) ...`), structural on the characters left:
past the end `text[i]` is '\0', not a digit, so the loop stops there. -/
def scanDigitsAux (text : List Char) : Nat → Nat → String × Nat
  | 0, i => ("", i)
  | n + 1, i =>
    if is_digit (text.getD i '\x00') then
      let (s, j) := scanDigitsAux text n (i + 1)
      (String.mk [text.getD i '\x00'] ++ s, j)
    else ("", i)

/-- The maximal digit run of `text` starting at `i`, as the C++ loop scans it:
the collected characters and the index just past them. -/
def scanDigits (text : List Char) (i : Nat) : String × Nat :=
  scanDigitsAux text (text.length + 1 - i) i

/-- `Tokenizer::read_number`: a run of digits, then, if a '.' follows
immediately, the '.' and a further (possibly empty) run of digits; the result
is a Fractional token exactly when the '.' was seen, an Int token otherwise. -/
def read_number (t : Tokenizer) : Token × Nat :=
  let (snum, j) := scanDigits t.text t.idx
  if t.text.getD j '\x00' = '.' then
    let (snum2, k) := scanDigits t.text (j + 1)
    (Token.Fractional (snum ++ "." ++ snum2), k)
  else
    (Token.Int snum, j)

/-- The alphanumeric-collecting loop of `Tokenizer::read_symbol`, structural
on the characters left. -/
def scanAlnumAux (text : List Char) : Nat → Nat → String × Nat
  | 0, i => ("", i)
  | n + 1, i =>
    if is_alphanumeric (text.getD i '\x00') then
      let (s, j) := scanAlnumAux text n (i + 1)
      (String.mk [text.getD i '\x00'] ++ s, j)
    else ("", i)

/-- The maximal alphanumeric run of `text` starting at `i`. -/
def scanAlnum (text : List Char) (i : Nat) : String × Nat :=
  scanAlnumAux text (text.length + 1 - i) i

/-- `Tokenizer::get_multichar_token`: reserved words, else a Symbol. -/
def get_multichar_token (s : String) : Token :=
  if s = Token.If.value then Token.If
  else if s = Token.Def.value then Token.Def
  else Token.Symbol s

/-- `Tokenizer::read_symbol`: the maximal alphanumeric run (possibly empty)
starting at the current index; reserved words become keyword tokens. -/
def read_symbol (t : Tokenizer) : Token × Nat :=
  let (sym, j) := scanAlnum t.text t.idx
  (get_multichar_token sym, j)

/-- `Tokenizer::get_token`: skip whitespace, then form the next token and the
index just past it. The skipped-whitespace tokenizer state is returned too,
because in C++ `skip_whitespace` mutates `idx` and `lineno` even on `peek`. -/
def get_token (t : Tokenizer) : (Token × Nat) × Tokenizer :=
  let t := t.skip_whitespace
  let c := t.curchar
  let r : Token × Nat :=
    if t.eos then (Token.EOS, t.idx)
    else if c = '(' then (Token.LParen, t.idx + 1)
    else if c = ')' then (Token.RParen, t.idx + 1)
    else if c = '\x7b' then (Token.LBrace, t.idx + 1)
    else if c = '\x7d' then (Token.RBrace, t.idx + 1)
    else if c = '@' then (Token.At, t.idx + 1)
    else if c = '$' then (Token.Dollar, t.idx + 1)
    else if c = '#' then (Token.Sharp, t.idx + 1)
    else if c = ';' then (Token.Semicolon, t.idx + 1)
    else if c = ',' then (Token.Comma, t.idx + 1)
    else if c = '=' then
      if t.nextchar = '=' then (Token.DoubleEquals, t.idx + 2)
      else (Token.Equals, t.idx + 1)
    else if c = '+' then (Token.Plus, t.idx + 1)
    else if c = '-' then (Token.Minus, t.idx + 1)
    else if c = '*' then (Token.Star, t.idx + 1)
    else if c = '/' then (Token.Slash, t.idx + 1)
    else if c = '"' then (Token.Quote, t.idx + 1)
    else if is_digit c then read_number t
    else read_symbol t
  (r, t)

/-- `Tokenizer::peek`: the next token, without consuming it (the whitespace
skip performed by `get_token` does persist, as in the C++). -/
def peek (t : Tokenizer) : Token × Tokenizer :=
  let ((tok, _), t') := get_token t
  (tok, t')

/-- `Tokenizer::next`: consume the token at the head of the stream. -/
def next (t : Tokenizer) : Tokenizer :=
  let ((_, n), t') := get_token t
  { t' with idx := n }

/-- `Tokenizer::position`: "character 'c', line n" for the current index. -/
def position (t : Tokenizer) : String :=
  "character '" ++ String.mk [t.text.getD t.idx '\x00'] ++ "', line " ++ toString t.lineno

/-- `text.substr(a, b - a)` on the character list. -/
def substrFT (text : List Char) (a b : Nat) : String :=
  String.mk ((text.drop a).take (b - a))

/-- The index reached by the loop of `Tokenizer::scan_until(char c)`
(`while (curchar() != c) idx++;`) after at most `n` condition checks. The
loop has no end-of-string check, so nothing but finding `c` stops it. -/
def scanUntilCharIter (text : List Char) (c : Char) : Nat → Nat → Nat
  | i, 0 => i
  | i, n + 1 =>
    if text.getD i '\x00' = c then i else scanUntilCharIter text c (i + 1) n

/-- The stopping index of `Tokenizer::scan_until(char c)` within `fuel`
condition checks, or `none` when `fuel` checks did not find `c`. -/
def scanUntilCharIdx (text : List Char) (c : Char) : Nat → Nat → Option Nat
  | _, 0 => none
  | i, fuel + 1 =>
    if text.getD i '\x00' = c then some i else scanUntilCharIdx text c (i + 1) fuel

/-- `Tokenizer::scan_until(char c)`: the substring from the current index up
to the first occurrence of `c`, and the tokenizer stopped on `c`. `none`
models the unbounded past-the-end scan: with `fuel = text.length - idx + 1`
the loop has then read past every position of the buffer. -/
def scan_until_char (t : Tokenizer) (c : Char) (fuel : Nat) : Option (String × Tokenizer) :=
  (scanUntilCharIdx t.text c t.idx fuel).map
    fun j => (substrFT t.text t.idx j, { t with idx := j })

/-- The loop of `Tokenizer::scan_until(Token::Type type)`:
`while (!t.isa(type) && !eos()) { next(); t = peek(); }`. `none` = the fuel
ran out, which on a terminating C++ run never happens with enough fuel. -/
def scanUntilTypeGo (ty : TokenType) : Nat → Tokenizer → Option Tokenizer
  | 0, _ => none
  | fuel + 1, t =>
    let (tok, t') := t.peek
    if ¬ tok.isa ty ∧ ¬ t'.eos then scanUntilTypeGo ty fuel t'.next
    else some t'

/-- `Tokenizer::scan_until(Token::Type)`: the substring from the entry index
(before any whitespace skip, as in the C++) up to the stopping index. -/
def scan_until_type (t : Tokenizer) (ty : TokenType) (fuel : Nat) : Option (String × Tokenizer) :=
  (scanUntilTypeGo ty fuel t).map
    fun t' => (substrFT t.text t.idx t'.idx, t')

/-- The loop of `Tokenizer::scan_until(Token::Type a, Token::Type b)`. -/
def scanUntilTwoGo (ta tb : TokenType) : Nat → Tokenizer → Option Tokenizer
  | 0, _ => none
  | fuel + 1, t =>
    let (tok, t') := t.peek
    if ¬ (tok.isa ta ∨ tok.isa tb) ∧ ¬ t'.eos then scanUntilTwoGo ta tb fuel t'.next
    else some t'

/-- `Tokenizer::scan_until(Token::Type a, Token::Type b)`. -/
def scan_until_two (t : Tokenizer) (ta tb : TokenType) (fuel : Nat) : Option (String × Tokenizer) :=
  (scanUntilTwoGo ta tb fuel t).map
    fun t' => (substrFT t.text t.idx t'.idx, t')

end Tokenizer

/-- Modelled from the spec: the enum `BinOp::Operator`. -/
inductive BinOperator where
  | Add | Sub | Mul | Div
  deriving DecidableEq, Repr

/-- Modelled from the spec: the enum `UnaryOp::Operator`. -/
inductive UnaryOperator where
  | Negate
  deriving DecidableEq, Repr

/-- Modelled from the spec: the Bish `Type` of a type hint. -/
inductive BishType where
  | IntegerTy | FractionalTy | StringTy | BooleanTy | UndefinedTy
  deriving DecidableEq, Repr

/-- Modelled from the spec: the closed set of IR node variants. A `Variable`
carries the allocation id that models C++ pointer identity: two occurrences
are the same heap object exactly when their ids are equal. An `ExternCall`
body is the fragment list of its `InterpolatedString`: `Sum.inl` a literal
text run pushed by `push_str`, `Sum.inr` a `Variable` node pushed by
`push_var`. -/
inductive IRNode where
  | Variable (name : String) (id : Nat)
  | Integer (s : String)
  | Fractional (s : String)
  | String (s : String)
  | Boolean (b : Bool)
  | BinOp (op : BinOperator) (l r : IRNode)
  | UnaryOp (op : UnaryOperator) (e : IRNode)
  | Comparison (l r : IRNode)
  | FunctionCall (name : String) (args : List IRNode)
  | Assignment (v : IRNode) (e : IRNode)
  | IfStatement (cond : IRNode) (body : IRNode)
  | ExternCall (body : List (String ⊕ IRNode))
  | Block (stmts : List IRNode)

/-- Modelled from the spec: a `Function` is a name, the ordered parameter
`Variable`s, and a body `Block`. -/
structure Function where
  name : String
  args : List IRNode
  body : IRNode

/-- Modelled from the spec: a `Module` is an implicitly-created main function
plus the ordered set of user functions in declaration order. The C++ main
pointer starts null (`none`) and is set by `set_main`. -/
structure Module where
  main : Option Function
  functions : List Function

/-- Modelled from the spec: a symbol table entry `{node: Variable, type}`. -/
structure SymbolTableEntry where
  node : IRNode
  type : BishType

/-- Modelled from the spec: one lexical scope's mapping from name to entry. -/
structure SymbolTable where
  entries : List (String × SymbolTableEntry)

/-- Modelled from the spec: `SymbolTable::lookup` returns this scope's entry
for the name, or none. -/
def SymbolTable.lookup (s : SymbolTable) (name : String) : Option SymbolTableEntry :=
  (s.entries.find? fun p => p.1 == name).map (·.2)

/-- Modelled from the spec: `SymbolTable::insert` adds or overwrites the
entry for the name in this table only. -/
def SymbolTable.insert (s : SymbolTable) (name : String) (v : IRNode) (ty : BishType) :
    SymbolTable :=
  ⟨(name, ⟨v, ty⟩) :: s.entries.filter fun p => !(p.1 == name)⟩

/-- The mutable state of the `Parser` object: the tokenizer, the scope stack
(head = innermost), the module stack (head = top), and the allocation counter
handing out `Variable` identities. -/
structure ParserState where
  tk : Tokenizer
  symbol_table_stack : List SymbolTable
  module_stack : List Module
  counter : Nat

namespace Parser

/-- The distinguished fuel-exhaustion error of the model: no terminating C++
run corresponds to it. -/
def out_of_fuel_msg : String := "<model: out of fuel>"

/-- The model error for a `scan_until` loop the C++ never exits (or, for the
character version, exits only by reading past the end of the buffer). -/
def scan_hang_msg : String := "<model: scan_until did not stop within the text>"

/-- `tokenizer->peek()` as a parser-state action (the whitespace skip
performed inside `get_token` persists, as in the C++). -/
def ppeek (st : ParserState) : Token × ParserState :=
  let (t, tk) := st.tk.peek
  (t, { st with tk := tk })

/-- `tokenizer->next()` as a parser-state action. -/
def pnext (st : ParserState) : ParserState := { st with tk := st.tk.next }

/-- `Parser::abort`: prints the message and exits(1); modelled as the error
value carrying exactly the printed message. -/
def abort (msg : String) : Except String α := .error msg

/-- `Parser::expect`: if the token is of the given type, advance the
tokenizer; otherwise abort with "Parsing error: msg near position". -/
def expect (t : Token) (ty : TokenType) (msg : String) (st : ParserState) :
    Except String ParserState :=
  if t.isa ty then .ok (pnext st)
  else .error ("Parsing error: " ++ msg ++ " near " ++ st.tk.position)

/-- `Parser::is_unop_token`. -/
def is_unop_token (t : Token) : Bool := t.isa .MinusType

/-- `Parser::is_binop_token`. -/
def is_binop_token (t : Token) : Bool :=
  t.isa .PlusType || t.isa .MinusType || t.isa .StarType || t.isa .SlashType

/-- `Parser::get_binop_operator`. The C++ default branch aborts and then
returns `BinOp::Add`; it is unreachable from the call sites, whose loop
conditions guarantee an operator token. -/
def get_binop_operator (t : Token) : BinOperator :=
  match t.ty with
  | .PlusType => .Add
  | .MinusType => .Sub
  | .StarType => .Mul
  | .SlashType => .Div
  | _ => .Add

/-- `Parser::get_unaryop_operator`: Minus maps to Negate; the aborting
default branch is unreachable and also returns Negate. -/
def get_unaryop_operator (_ : Token) : UnaryOperator := .Negate

/-- `Parser::get_primitive_type`: the dynamic_cast chain over literals. -/
def get_primitive_type (n : IRNode) : BishType :=
  match n with
  | .Integer _ => .IntegerTy
  | .Fractional _ => .FractionalTy
  | .String _ => .StringTy
  | .Boolean _ => .BooleanTy
  | _ => .UndefinedTy

/-- `Parser::push_module`. -/
def push_module (m : Module) (st : ParserState) : ParserState :=
  { st with module_stack := m :: st.module_stack }

/-- `Parser::pop_module` (top/pop of an empty stack is undefined in C++ and
unreached; the model returns an empty module then). -/
def pop_module (st : ParserState) : Module × ParserState :=
  match st.module_stack with
  | [] => (⟨none, []⟩, st)
  | m :: rest => (m, { st with module_stack := rest })

/-- `Parser::push_symbol_table`. -/
def push_symbol_table (s : SymbolTable) (st : ParserState) : ParserState :=
  { st with symbol_table_stack := s :: st.symbol_table_stack }

/-- `Parser::pop_symbol_table` (the callers delete the popped table; the
model drops it). -/
def pop_symbol_table (st : ParserState) : ParserState :=
  { st with symbol_table_stack := st.symbol_table_stack.tail }

/-- `module_stack.top()->add_function(f)` as `Parser::stmt` performs it. -/
def add_function_top (f : Function) (st : ParserState) : ParserState :=
  match st.module_stack with
  | [] => st
  | m :: rest =>
    { st with module_stack := { m with functions := m.functions ++ [f] } :: rest }

/-- `m->set_main(pre_main)` in `Parser::module`: `m` is the module on top of
the module stack. -/
def set_main_top (f : Function) (st : ParserState) : ParserState :=
  match st.module_stack with
  | [] => st
  | m :: rest => { st with module_stack := { m with main := some f } :: rest }

/-- `symbol_table_stack.top()->insert(name, v, ty)` (an empty stack would be
undefined in C++ and is unreached; the model leaves the state unchanged). -/
def insert_top (name : String) (v : IRNode) (ty : BishType) (st : ParserState) :
    ParserState :=
  match st.symbol_table_stack with
  | [] => st
  | s :: rest => { st with symbol_table_stack := s.insert name v ty :: rest }

/-- The while loop of `Parser::lookup`: pop tables into the aux stack until a
table holding the name is on top (that table itself is not popped) or the
stack is empty. Returns (result, remaining stack, aux stack). -/
def lookupGo (name : String) :
    List SymbolTable → List SymbolTable →
    Option IRNode × List SymbolTable × List SymbolTable
  | [], aux => (none, [], aux)
  | s :: rest, aux =>
    match s.lookup name with
    | some e => (some e.node, s :: rest, aux)
    | none => lookupGo name rest (s :: aux)

/-- The restore loop of `Parser::lookup`: push the aux frames back. -/
def restoreStack : List SymbolTable → List SymbolTable → List SymbolTable
  | [], stk => stk
  | a :: rest, stk => restoreStack rest (a :: stk)

/-- `Parser::lookup`: search the scope stack innermost-to-outermost by
popping frames into an aux stack, then push the popped frames back. Returns
the first match (or none) and the scope stack as the call leaves it. -/
def lookup (name : String) (stk : List SymbolTable) :
    Option IRNode × List SymbolTable :=
  let (result, stk', aux) := lookupGo name stk []
  (result, restoreStack aux stk')

/-- `Parser::lookup_or_new_var`: the stored `Variable` node if the name is
visible in some scope, otherwise a new `Variable` (fresh id) inserted into
the innermost scope with undefined type. -/
def lookup_or_new_var (name : String) (st : ParserState) : IRNode × ParserState :=
  let (result, stk) := lookup name st.symbol_table_stack
  let st := { st with symbol_table_stack := stk }
  match result with
  | some v => (v, st)
  | none =>
    let v := IRNode.Variable name st.counter
    (v, insert_top name v .UndefinedTy { st with counter := st.counter + 1 })

/-- `Parser::symbol`: peek, expect a Symbol token, return its value. -/
def symbol (st : ParserState) : Except String (String × ParserState) := do
  let (t, st) := ppeek st
  let st ← expect t .SymbolType "Expected symbol." st
  return (t.value, st)

/-- `Parser::var` (the C++ peeks twice for the name and the check; peek is
idempotent, so the model uses one peek for both). -/
def var (st : ParserState) : Except String (IRNode × ParserState) := do
  let (t, st) := ppeek st
  let st ← expect t .SymbolType "Expected variable to be a symbol" st
  return lookup_or_new_var t.value st

/-- `Parser::arg`: always creates a fresh `Variable` in the innermost
scope, shadowing any visible binding of the same name. -/
def arg (st : ParserState) : Except String (IRNode × ParserState) := do
  let (t, st) := ppeek st
  let st ← expect t .SymbolType "Expected argument to be a symbol" st
  let v := IRNode.Variable t.value st.counter
  return (v, insert_top t.value v .UndefinedTy { st with counter := st.counter + 1 })

/-- `Parser::atom`: a symbol resolved through the scope lookup, an integer or
fractional literal, or a quoted string whose body is scanned raw up to the
closing quote; everything else aborts. -/
def atom (st : ParserState) : Except String (IRNode × ParserState) := do
  let (t, st) := ppeek st
  let st := pnext st
  match t.ty with
  | .SymbolType => return lookup_or_new_var t.value st
  | .IntType => return (IRNode.Integer t.value, st)
  | .FractionalType => return (IRNode.Fractional t.value, st)
  | .QuoteType =>
    match st.tk.scan_until_type .QuoteType (st.tk.text.length + 2) with
    | none => Except.error scan_hang_msg
    | some (s, tk) =>
      let st := { st with tk := tk }
      let (t2, st) := ppeek st
      let st ← expect t2 .QuoteType "Unmatched '\"'" st
      return (IRNode.String s, st)
  | _ => abort "Invalid token type for atom."

/-- The bundle of the mutually recursive parsing routines of Parser.cpp at
one fuel level. The bundle built with fuel n+1 runs each routine's C++ body
with every recursive call dispatched through the bundle of fuel n, so the
fuel bounds the depth of the C++ mutual recursion; the fuel-0 bundle is the
distinguished out-of-fuel error everywhere. (An explicit `Nat.rec` over a
function bundle keeps kernel reduction of concrete runs linear in the fuel,
which a direct mutual definition does not.) -/
structure ParserFns where
  block : ParserState → Except String (IRNode × ParserState)
  block_loop : List IRNode → ParserState → Except String (List IRNode × ParserState)
  stmt : ParserState → Except String (Option IRNode × ParserState)
  otherstmt : ParserState → Except String (IRNode × ParserState)
  assignment : String → ParserState → Except String (IRNode × ParserState)
  funcall : String → ParserState → Except String (IRNode × ParserState)
  funcall_args : List IRNode → ParserState → Except String (List IRNode × ParserState)
  ifstmt : ParserState → Except String (IRNode × ParserState)
  functiondef : ParserState → Except String (Function × ParserState)
  externcall : ParserState → Except String (IRNode × ParserState)
  externcall_loop : List (String ⊕ IRNode) → ParserState →
    Except String (List (String ⊕ IRNode) × ParserState)
  fdef_args : List IRNode → ParserState → Except String (List IRNode × ParserState)
  expr : ParserState → Except String (IRNode × ParserState)
  arith : ParserState → Except String (IRNode × ParserState)
  arith_loop : IRNode → ParserState → Except String (IRNode × ParserState)
  term : ParserState → Except String (IRNode × ParserState)
  term_loop : IRNode → ParserState → Except String (IRNode × ParserState)
  unary : ParserState → Except String (IRNode × ParserState)
  factor : ParserState → Except String (IRNode × ParserState)

/-- The fuel-0 bundle: every routine reports fuel exhaustion. -/
def outOfFuelFns : ParserFns where
  block := fun _ => .error out_of_fuel_msg
  block_loop := fun _ _ => .error out_of_fuel_msg
  stmt := fun _ => .error out_of_fuel_msg
  otherstmt := fun _ => .error out_of_fuel_msg
  assignment := fun _ _ => .error out_of_fuel_msg
  funcall := fun _ _ => .error out_of_fuel_msg
  funcall_args := fun _ _ => .error out_of_fuel_msg
  ifstmt := fun _ => .error out_of_fuel_msg
  functiondef := fun _ => .error out_of_fuel_msg
  externcall := fun _ => .error out_of_fuel_msg
  externcall_loop := fun _ _ => .error out_of_fuel_msg
  fdef_args := fun _ _ => .error out_of_fuel_msg
  expr := fun _ => .error out_of_fuel_msg
  arith := fun _ => .error out_of_fuel_msg
  arith_loop := fun _ _ => .error out_of_fuel_msg
  term := fun _ => .error out_of_fuel_msg
  term_loop := fun _ _ => .error out_of_fuel_msg
  unary := fun _ => .error out_of_fuel_msg
  factor := fun _ => .error out_of_fuel_msg

/-- One step of the parser bundle: each field is the line-by-line
translation of the corresponding Parser.cpp function, with recursive calls
going through `prev`. -/
def parserStep (prev : ParserFns) : ParserFns where
  -- Parser::block: push a scope, expect LBrace, run the do-while statement
  -- loop, expect RBrace, pop the scope.
  block := fun st => do
    let st := push_symbol_table ⟨[]⟩ st
    let (t, st) := ppeek st
    let st ← expect t .LBraceType "Expected block to begin with '\x7b'" st
    let (stmts, st) ← prev.block_loop [] st
    let (t2, st) := ppeek st
    let st ← expect t2 .RBraceType "Expected block to end with '\x7d'" st
    return (IRNode.Block stmts, pop_symbol_table st)
  -- The do-while of Parser::block: skip a '#' comment to end of line, parse
  -- one statement (before any check for RBrace), keep it unless it is NULL,
  -- and repeat until RBrace is next.
  block_loop := fun stmts st => do
    let (t, st) := ppeek st
    let st ← (do
      if t.isa .SharpType then
        match st.tk.scan_until_char '\n' (st.tk.text.length + 1 - st.tk.idx) with
        | none => Except.error scan_hang_msg
        | some (_, tk) => pure { st with tk := tk }
      else pure st : Except String ParserState)
    let (s, st) ← prev.stmt st
    let stmts := match s with
      | some n => stmts ++ [n]
      | none => stmts
    let (t2, st) := ppeek st
    if t2.isa .RBraceType then return (stmts, st)
    else prev.block_loop stmts st
  -- Parser::stmt: dispatch on the peeked token; a function definition is
  -- added to the module on top of the module stack and yields no statement
  -- (NULL in the C++).
  stmt := fun st => do
    let (t, st) := ppeek st
    match t.ty with
    | .LBraceType => do
      let (b, st) ← prev.block st
      return (some b, st)
    | .AtType => do
      let (e, st) ← prev.externcall st
      return (some e, st)
    | .IfType => do
      let (s, st) ← prev.ifstmt st
      return (some s, st)
    | .DefType => do
      let (f, st) ← prev.functiondef st
      return (none, add_function_top f st)
    | _ => do
      let (s, st) ← prev.otherstmt st
      return (some s, st)
  -- Parser::otherstmt: a symbol followed by an assignment or a call, then
  -- ';'; any other token after the symbol aborts.
  otherstmt := fun st => do
    let (sym, st) ← symbol st
    let (t, st) := ppeek st
    let (s, st) ← (match t.ty with
      | .EqualsType => prev.assignment sym st
      | .LParenType => prev.funcall sym st
      | _ => abort "Unexpected token in statement."
      : Except String (IRNode × ParserState))
    let (t2, st) := ppeek st
    let st ← expect t2 .SemicolonType "Expected statement to end with ';'" st
    return (s, st)
  -- Parser::assignment: '=', the target Variable by lookup-or-create, the
  -- right-hand expression; a literal right-hand side records a type hint
  -- for the name in the innermost scope.
  assignment := fun name st => do
    let (t, st) := ppeek st
    let st ← expect t .EqualsType "Expected assignment operator" st
    let (v, st) := lookup_or_new_var name st
    let (e, st) ← prev.expr st
    let ty := get_primitive_type e
    let st := if ty = .UndefinedTy then st else insert_top name v ty st
    return (IRNode.Assignment v e, st)
  -- Parser::funcall: '(' a comma-separated list of atoms ')' (atoms only,
  -- not full expressions).
  funcall := fun name st => do
    let (t, st) := ppeek st
    let st ← expect t .LParenType "Expected opening '('" st
    let (t2, st) := ppeek st
    let (args, st) ← (do
      if t2.isa .RParenType then pure ([], st)
      else
        let (a, st) ← atom st
        prev.funcall_args [a] st : Except String _)
    let (t3, st) := ppeek st
    let st ← expect t3 .RParenType "Expected closing ')'" st
    return (IRNode.FunctionCall name args, st)
  -- The comma loop of Parser::funcall.
  funcall_args := fun args st => do
    let (t, st) := ppeek st
    if t.isa .CommaType then
      let st := pnext st
      let (a, st) ← atom st
      prev.funcall_args (args ++ [a]) st
    else return (args, st)
  -- Parser::ifstmt: 'if' '(' expr ')' block — single-armed, no else.
  ifstmt := fun st => do
    let (t, st) := ppeek st
    let st ← expect t .IfType "Expected if statement" st
    let (t2, st) := ppeek st
    let st ← expect t2 .LParenType "Expected opening '('" st
    let (cond, st) ← prev.expr st
    let (t3, st) := ppeek st
    let st ← expect t3 .RParenType "Expected closing ')'" st
    let (body, st) ← prev.block st
    return (IRNode.IfStatement cond body, st)
  -- Parser::functiondef: 'def' name '(' parameters ')' block, with a fresh
  -- scope for the parameters (the body block pushes its own scope on top).
  functiondef := fun st => do
    let (t, st) := ppeek st
    let st ← expect t .DefType "Expected def statement" st
    let (name, st) ← symbol st
    let (t2, st) := ppeek st
    let st ← expect t2 .LParenType "Expected opening '('" st
    let st := push_symbol_table ⟨[]⟩ st
    let (t3, st) := ppeek st
    let (args, st) ← (do
      if t3.isa .RParenType then pure ([], st)
      else
        let (a, st) ← arg st
        prev.fdef_args [a] st : Except String _)
    let (t4, st) := ppeek st
    let st ← expect t4 .RParenType "Expected closing ')'" st
    let (body, st) ← prev.block st
    return (⟨name, args, body⟩, pop_symbol_table st)
  -- Parser::externcall: '@' '(' fragments ')' ';'.
  externcall := fun st => do
    let (t, st) := ppeek st
    let st ← expect t .AtType "Expected '@' to begin extern call." st
    let (t2, st) := ppeek st
    let st ← expect t2 .LParenType "Expected opening '('" st
    let (body, st) ← prev.externcall_loop [] st
    let (t3, st) := ppeek st
    let st ← expect t3 .RParenType "Expected closing ')'" st
    let (t4, st) := ppeek st
    let st ← expect t4 .SemicolonType "Expected statement to end with ';'" st
    return (IRNode.ExternCall body, st)
  -- The do-while of Parser::externcall: scan a literal run up to '$' or
  -- ')', push it, then an interpolated variable after '$' if present;
  -- repeat until ')' is next.
  externcall_loop := fun body st => do
    match st.tk.scan_until_two .DollarType .RParenType (st.tk.text.length + 2) with
    | none => Except.error scan_hang_msg
    | some (s, tk) =>
      let st := { st with tk := tk }
      let body := body ++ [Sum.inl s]
      let (t, st) := ppeek st
      let (body, st) ← (do
        if t.isa .DollarType then
          let st := pnext st
          let (v, st) ← var st
          pure (body ++ [Sum.inr v], st)
        else pure (body, st) : Except String _)
      let (t2, st) := ppeek st
      if t2.isa .RParenType then return (body, st)
      else prev.externcall_loop body st
  -- The comma loop of Parser::functiondef's parameter list.
  fdef_args := fun args st => do
    let (t, st) := ppeek st
    if t.isa .CommaType then
      let st := pnext st
      let (a, st) ← arg st
      prev.fdef_args (args ++ [a]) st
    else return (args, st)
  -- Parser::expr: an arith, optionally compared once by '=='.
  expr := fun st => do
    let (a, st) ← prev.arith st
    let (t, st) := ppeek st
    if t.isa .DoubleEqualsType then
      let st := pnext st
      let (b, st) ← prev.arith st
      return (IRNode.Comparison a b, st)
    else return (a, st)
  -- Parser::arith: a term followed by the '+'/'-' loop.
  arith := fun st => do
    let (a, st) ← prev.term st
    prev.arith_loop a st
  -- The while loop of Parser::arith: left-accumulate BinOps over '+'/'-'.
  arith_loop := fun a st => do
    let (t, st) := ppeek st
    if t.isa .PlusType || t.isa .MinusType then
      let st := pnext st
      let (b, st) ← prev.term st
      prev.arith_loop (IRNode.BinOp (get_binop_operator t) a b) st
    else return (a, st)
  -- Parser::term: a unary followed by the '*'/'/' loop.
  term := fun st => do
    let (a, st) ← prev.unary st
    prev.term_loop a st
  -- The while loop of Parser::term: left-accumulate BinOps over '*'/'/'.
  term_loop := fun a st => do
    let (t, st) := ppeek st
    if t.isa .StarType || t.isa .SlashType then
      let st := pnext st
      let (b, st) ← prev.unary st
      prev.term_loop (IRNode.BinOp (get_binop_operator t) a b) st
    else return (a, st)
  -- Parser::unary: an optional leading '-' (Negate), then a factor.
  unary := fun st => do
    let (t, st) := ppeek st
    if is_unop_token t then
      let st := pnext st
      let (e, st) ← prev.factor st
      return (IRNode.UnaryOp (get_unaryop_operator t) e, st)
    else prev.factor st
  -- Parser::factor: a parenthesized expr or an atom.
  factor := fun st => do
    let (t, st) := ppeek st
    if t.isa .LParenType then
      let st := pnext st
      let (e, st) ← prev.expr st
      let (t2, st) := ppeek st
      let st ← expect t2 .RParenType "Unmatched '('" st
      return (e, st)
    else atom st

/-- The parser bundle at a given fuel, by explicit `Nat.rec`. -/
def parserFns (fuel : Nat) : ParserFns :=
  Nat.rec outOfFuelFns (fun _ prev => parserStep prev) fuel

/-- `Parser::block` at the given fuel. -/
def block (fuel : Nat) (st : ParserState) : Except String (IRNode × ParserState) :=
  (parserFns fuel).block st

/-- The do-while statement loop of `Parser::block` at the given fuel. -/
def block_loop (fuel : Nat) (stmts : List IRNode) (st : ParserState) :
    Except String (List IRNode × ParserState) :=
  (parserFns fuel).block_loop stmts st

/-- `Parser::stmt` at the given fuel. -/
def stmt (fuel : Nat) (st : ParserState) : Except String (Option IRNode × ParserState) :=
  (parserFns fuel).stmt st

/-- `Parser::otherstmt` at the given fuel. -/
def otherstmt (fuel : Nat) (st : ParserState) : Except String (IRNode × ParserState) :=
  (parserFns fuel).otherstmt st

/-- `Parser::assignment` at the given fuel. -/
def assignment (fuel : Nat) (name : String) (st : ParserState) :
    Except String (IRNode × ParserState) :=
  (parserFns fuel).assignment name st

/-- `Parser::funcall` at the given fuel. -/
def funcall (fuel : Nat) (name : String) (st : ParserState) :
    Except String (IRNode × ParserState) :=
  (parserFns fuel).funcall name st

/-- `Parser::ifstmt` at the given fuel. -/
def ifstmt (fuel : Nat) (st : ParserState) : Except String (IRNode × ParserState) :=
  (parserFns fuel).ifstmt st

/-- `Parser::functiondef` at the given fuel. -/
def functiondef (fuel : Nat) (st : ParserState) : Except String (Function × ParserState) :=
  (parserFns fuel).functiondef st

/-- `Parser::externcall` at the given fuel. -/
def externcall (fuel : Nat) (st : ParserState) : Except String (IRNode × ParserState) :=
  (parserFns fuel).externcall st

/-- `Parser::expr` at the given fuel. -/
def expr (fuel : Nat) (st : ParserState) : Except String (IRNode × ParserState) :=
  (parserFns fuel).expr st

/-- `Parser::arith` at the given fuel. -/
def arith (fuel : Nat) (st : ParserState) : Except String (IRNode × ParserState) :=
  (parserFns fuel).arith st

/-- The '+'/'-' accumulation loop of `Parser::arith` at the given fuel. -/
def arith_loop (fuel : Nat) (a : IRNode) (st : ParserState) :
    Except String (IRNode × ParserState) :=
  (parserFns fuel).arith_loop a st

/-- `Parser::term` at the given fuel. -/
def term (fuel : Nat) (st : ParserState) : Except String (IRNode × ParserState) :=
  (parserFns fuel).term st

/-- The '*'/'/' accumulation loop of `Parser::term` at the given fuel. -/
def term_loop (fuel : Nat) (a : IRNode) (st : ParserState) :
    Except String (IRNode × ParserState) :=
  (parserFns fuel).term_loop a st

/-- `Parser::unary` at the given fuel. -/
def unary (fuel : Nat) (st : ParserState) : Except String (IRNode × ParserState) :=
  (parserFns fuel).unary st

/-- `Parser::factor` at the given fuel. -/
def factor (fuel : Nat) (st : ParserState) : Except String (IRNode × ParserState) :=
  (parserFns fuel).factor st

/-- The bundle at fuel n+1 is one step over the bundle at fuel n
(definitional). -/
theorem parserFns_succ (n : Nat) : parserFns (n + 1) = parserStep (parserFns n) := rfl

/-- `Parser::module`: push a fresh Module, parse the root block as the body
of the pre-main function "bish_main", set it as the module's main, pop and
return the module. -/
def module (fuel : Nat) (st : ParserState) : Except String (Module × ParserState) := do
  let st := push_module ⟨none, []⟩ st
  let (b, st) ← block fuel st
  let st := set_main_top ⟨"bish_main", [], b⟩ st
  return pop_module st

/-- `Parser::parse_string`: wrap the text in synthetic braces so the root
behaves as one block, parse a module, and require end of string. The fuel is
generous: every recursive call and loop iteration of the C++ parser consumes
fuel at a bounded rate per input character, so any terminating run of the
C++ on this input finishes well within it. -/
def parse_string (text : String) : Except String Module := do
  let preprocessed := ('\x7b' :: text.data) ++ ['\x7d']
  let st : ParserState := ⟨⟨preprocessed, 0, 1⟩, [], [], 0⟩
  let fuel := preprocessed.length * 16 + 64
  let (m, st) ← module fuel st
  let (t, st) := ppeek st
  let _ ← expect t .EOSType "Expected end of string." st
  return m

end Parser

/-! ## Theorems -/

namespace Parser

/-- The specification's description of the stack search, stated from the
spec's words for comparison with `Parser.lookup`: walk the scope chain
innermost-to-outermost, return the node of the first scope that has an
entry for the name, or none. -/
def lookup_spec (name : String) (stk : List SymbolTable) : Option IRNode :=
  (stk.findSome? fun s => s.lookup name).map (·.node)

/-- Unfolding `Parser.lookup` to its two components (definitional). -/
theorem lookup_eq_components (name : String) (stk : List SymbolTable) :
    lookup name stk = ((lookupGo name stk []).1,
      restoreStack (lookupGo name stk []).2.2 (lookupGo name stk []).2.1) := rfl

/-- The invariant of the pop/restore pair in `Parser::lookup`: restoring the
aux frames onto the remaining stack rebuilds exactly what restoring the
incoming aux onto the incoming stack would, and the result is the first
match of the spec-side search. -/
theorem lookupGo_spec (name : String) :
    ∀ (stk aux : List SymbolTable),
      restoreStack (lookupGo name stk aux).2.2 (lookupGo name stk aux).2.1
          = restoreStack aux stk
      ∧ (lookupGo name stk aux).1
          = (stk.findSome? fun s => s.lookup name).map (·.node) := by
  intro stk
  induction stk with
  | nil =>
    intro aux
    simp [lookupGo]
  | cons s rest ih =>
    intro aux
    cases h : s.lookup name with
    | some e =>
      simp [lookupGo, h]
    | none =>
      have h2 := ih (s :: aux)
      constructor
      · simpa [lookupGo, h, restoreStack] using h2.1
      · simpa [lookupGo, h] using h2.2

/-- `Parser::lookup` leaves the scope stack exactly as it found it. -/
theorem lookup_preserves_stack (name : String) (stk : List SymbolTable) :
    (lookup name stk).2 = stk := by
  rw [lookup_eq_components]
  exact (lookupGo_spec name stk []).1

/-- `Parser::lookup` returns the innermost-first match of the spec search. -/
theorem lookup_first_match (name : String) (stk : List SymbolTable) :
    (lookup name stk).1 = lookup_spec name stk := by
  rw [lookup_eq_components]
  exact (lookupGo_spec name stk []).2

end Parser

/-- C4: for every name and every state of the scope stack, `lookup(name)`
searches the stack innermost-to-outermost and returns the first matching
entry or none, and afterwards the scope stack holds exactly the same frames
in exactly the same order as before the call — whether no match was found
or a match was found at any depth. -/
theorem lookup_searches_innermost_out_and_preserves_frames :
    ∀ (name : String) (stk : List SymbolTable),
      Parser.lookup name stk = (Parser.lookup_spec name stk, stk) := by
  intro name stk
  have h1 := Parser.lookup_first_match name stk
  have h2 := Parser.lookup_preserves_stack name stk
  rcases hp : Parser.lookup name stk with ⟨r, s2⟩
  rw [hp] at h1 h2
  exact Prod.ext h1 h2

/-- C2: for every occurrence of a variable name in a scope where a binding
of that name is visible, the parser's resolver (`lookup_or_new_var`, used
for atoms and assignment targets) returns the stored `Variable` node itself
— same allocation identity, no new node — and leaves the parser state
untouched; and concretely, parsing "{ a = 1; a = a + 1; }" resolves the
second assignment's target and the `a` in its right-hand side to the
`Variable` with the same id 0 created by the first assignment. -/
theorem variable_occurrences_resolve_to_same_node :
    (∀ (st : ParserState) (name : String) (v : IRNode),
        (Parser.lookup name st.symbol_table_stack).1 = some v →
        Parser.lookup_or_new_var name st = (v, st))
    ∧ Parser.parse_string "\x7b a = 1; a = a + 1; \x7d"
        = .ok ⟨some ⟨"bish_main", [],
            .Block [.Block [
              .Assignment (.Variable "a" 0) (.Integer "1"),
              .Assignment (.Variable "a" 0)
                (.BinOp .Add (.Variable "a" 0) (.Integer "1"))]]⟩, []⟩ := by
  constructor
  · intro st name v h
    have h2 := Parser.lookup_preserves_stack name st.symbol_table_stack
    rcases hp : Parser.lookup name st.symbol_table_stack with ⟨r, s2⟩
    rw [hp] at h h2
    simp only at h h2
    subst h2
    simp [Parser.lookup_or_new_var, hp, h]
  · rfl

namespace Parser

/-- A left-nested chain of binary operators: the (operator, operand) list
folded onto the seed from the left, as the loops of `Parser::arith` and
`Parser::term` accumulate it. -/
def binopFoldl (a : IRNode) (l : List (BinOperator × IRNode)) : IRNode :=
  l.foldl (fun acc p => IRNode.BinOp p.1 acc p.2) a

/-- Whatever the '+'/'-' loop of `Parser::arith` returns is a left-nested
chain of Add/Sub BinOps hung onto the incoming accumulator. -/
theorem arith_loop_left_assoc :
    ∀ (fuel : Nat) (a : IRNode) (st : ParserState) (e : IRNode) (st' : ParserState),
      arith_loop fuel a st = .ok (e, st') →
      ∃ l : List (BinOperator × IRNode),
        (∀ p ∈ l, p.1 = BinOperator.Add ∨ p.1 = BinOperator.Sub)
        ∧ e = binopFoldl a l := by
  intro fuel
  induction fuel with
  | zero =>
    intro a st e st' h
    simp [arith_loop, parserFns, outOfFuelFns, out_of_fuel_msg] at h
  | succ fuel ih =>
    intro a st e st' h
    have hu : arith_loop (fuel + 1) a st
        = (let (t, st1) := ppeek st
           if t.isa .PlusType || t.isa .MinusType then
             Except.bind ((parserFns fuel).term (pnext st1)) fun p =>
               (parserFns fuel).arith_loop
                 (IRNode.BinOp (get_binop_operator t) a p.1) p.2
           else pure (a, st1)) := rfl
    rw [hu] at h
    rcases hp : ppeek st with ⟨t, st1⟩
    rw [hp] at h
    dsimp only at h
    by_cases hc : (t.isa .PlusType || t.isa .MinusType) = true
    · rw [if_pos hc] at h
      cases hterm : (parserFns fuel).term (pnext st1) with
      | error err => rw [hterm] at h; simp [Except.bind] at h
      | ok p =>
        rw [hterm] at h
        simp only [Except.bind] at h
        obtain ⟨l, hl, he⟩ := ih _ _ _ _ h
        refine ⟨(get_binop_operator t, p.1) :: l, ?_, ?_⟩
        · intro q hq
          rcases List.mem_cons.mp hq with hq | hq
          · subst hq
            simp only [Token.isa, Bool.or_eq_true, decide_eq_true_eq] at hc
            rcases hc with h1 | h1 <;> simp [get_binop_operator, h1]
          · exact hl q hq
        · simpa [binopFoldl] using he
    · rw [if_neg hc] at h
      have : (a, st1) = (e, st') := by
        simpa [pure, Except.pure] using h
      exact ⟨[], by simp, by simp [binopFoldl, ← (Prod.mk.injEq .. |>.mp this).1]⟩

/-- Whatever the '*'/'/' loop of `Parser::term` returns is a left-nested
chain of Mul/Div BinOps hung onto the incoming accumulator. -/
theorem term_loop_left_assoc :
    ∀ (fuel : Nat) (a : IRNode) (st : ParserState) (e : IRNode) (st' : ParserState),
      term_loop fuel a st = .ok (e, st') →
      ∃ l : List (BinOperator × IRNode),
        (∀ p ∈ l, p.1 = BinOperator.Mul ∨ p.1 = BinOperator.Div)
        ∧ e = binopFoldl a l := by
  intro fuel
  induction fuel with
  | zero =>
    intro a st e st' h
    simp [term_loop, parserFns, outOfFuelFns, out_of_fuel_msg] at h
  | succ fuel ih =>
    intro a st e st' h
    have hu : term_loop (fuel + 1) a st
        = (let (t, st1) := ppeek st
           if t.isa .StarType || t.isa .SlashType then
             Except.bind ((parserFns fuel).unary (pnext st1)) fun p =>
               (parserFns fuel).term_loop
                 (IRNode.BinOp (get_binop_operator t) a p.1) p.2
           else pure (a, st1)) := rfl
    rw [hu] at h
    rcases hp : ppeek st with ⟨t, st1⟩
    rw [hp] at h
    dsimp only at h
    by_cases hc : (t.isa .StarType || t.isa .SlashType) = true
    · rw [if_pos hc] at h
      cases hterm : (parserFns fuel).unary (pnext st1) with
      | error err => rw [hterm] at h; simp [Except.bind] at h
      | ok p =>
        rw [hterm] at h
        simp only [Except.bind] at h
        obtain ⟨l, hl, he⟩ := ih _ _ _ _ h
        refine ⟨(get_binop_operator t, p.1) :: l, ?_, ?_⟩
        · intro q hq
          rcases List.mem_cons.mp hq with hq | hq
          · subst hq
            simp only [Token.isa, Bool.or_eq_true, decide_eq_true_eq] at hc
            rcases hc with h1 | h1 <;> simp [get_binop_operator, h1]
          · exact hl q hq
        · simpa [binopFoldl] using he
    · rw [if_neg hc] at h
      have : (a, st1) = (e, st') := by
        simpa [pure, Except.pure] using h
      exact ⟨[], by simp, by simp [binopFoldl, ← (Prod.mk.injEq .. |>.mp this).1]⟩

end Parser

/-- C1 (the code at the claim's input): parsing the empty input does not
succeed — the do-while in `Parser::block` runs `stmt()` before testing for
RBrace, so the synthetic root block of the empty input aborts with
"Expected symbol." at the closing brace, instead of yielding a Module whose
main holds an empty statement list. -/
theorem empty_input_aborts :
    Parser.parse_string ""
      = .error "Parsing error: Expected symbol. near character '\x7d', line 1" := rfl

/-- C3 (amended): bare expressions are not statements, so the tree is
observed through an assignment: parsing "x=1+2*3;" builds a right operand
BinOp(Add, Integer(1), BinOp(Mul, Integer(2), Integer(3))) —
multiplication binds tighter than addition — and "x=1-2-3;" nests to the
left; in general every run of the '+'/'-' loop and of the '*'/'/' loop
returns a left-fold of BinOps over the operands it consumed, so the four
operators associate to the left. -/
theorem arith_precedence_and_left_assoc :
    Parser.parse_string "x=1+2*3;"
        = .ok ⟨some ⟨"bish_main", [],
            .Block [.Assignment (.Variable "x" 0)
              (.BinOp .Add (.Integer "1") (.BinOp .Mul (.Integer "2") (.Integer "3")))]⟩, []⟩
    ∧ Parser.parse_string "x=1-2-3;"
        = .ok ⟨some ⟨"bish_main", [],
            .Block [.Assignment (.Variable "x" 0)
              (.BinOp .Sub (.BinOp .Sub (.Integer "1") (.Integer "2")) (.Integer "3"))]⟩, []⟩
    ∧ (∀ (fuel : Nat) (a : IRNode) (st : ParserState) (e : IRNode) (st' : ParserState),
        Parser.arith_loop fuel a st = .ok (e, st') →
        ∃ l : List (BinOperator × IRNode),
          (∀ p ∈ l, p.1 = BinOperator.Add ∨ p.1 = BinOperator.Sub)
          ∧ e = Parser.binopFoldl a l)
    ∧ (∀ (fuel : Nat) (a : IRNode) (st : ParserState) (e : IRNode) (st' : ParserState),
        Parser.term_loop fuel a st = .ok (e, st') →
        ∃ l : List (BinOperator × IRNode),
          (∀ p ∈ l, p.1 = BinOperator.Mul ∨ p.1 = BinOperator.Div)
          ∧ e = Parser.binopFoldl a l) :=
  ⟨rfl, rfl, Parser.arith_loop_left_assoc, Parser.term_loop_left_assoc⟩

/-- C3 counterexample: the claim's input "1+2*3;" is not accepted as a
statement at all — `Parser::otherstmt` demands a leading symbol, so the
parse aborts instead of building the claimed expression tree. -/
theorem bare_expression_statement_rejected :
    Parser.parse_string "1+2*3;"
      = .error "Parsing error: Expected symbol. near character '1', line 1" := rfl

namespace Tokenizer

/-- A character absent from position `idx` onwards is also absent from
position `idx + 1` onwards. -/
theorem not_mem_drop_succ {c : Char} {text : List Char} {idx : Nat}
    (h : c ∉ text.drop idx) : c ∉ text.drop (idx + 1) := by
  intro hmem
  apply h
  have hdd : (text.drop idx).drop 1 = text.drop (idx + 1) := List.drop_drop 1 idx text
  rw [← hdd] at hmem
  exact List.mem_of_mem_drop hmem

/-- If `c` does not occur at or after the current index (and is not the '\0'
terminator the C++ string supplies at `size()`), the condition check of the
`scan_until(char)` loop never succeeds: after `n` iterations the index is
exactly `idx + n`, for every `n`. -/
theorem scanUntilCharIter_no_stop :
    ∀ (text : List Char) (c : Char) (n idx : Nat),
      c ∉ text.drop idx → c ≠ '\x00' →
      scanUntilCharIter text c idx n = idx + n := by
  intro text c n
  induction n with
  | zero =>
    intro idx h hc
    simp [scanUntilCharIter]
  | succ n ih =>
    intro idx h hc
    have hne : text.getD idx '\x00' ≠ c := by
      by_cases hlt : idx < text.length
      · rw [List.getD_eq_getElem _ _ hlt]
        intro he
        apply h
        rw [List.drop_eq_getElem_cons hlt, he]
        exact List.mem_cons_self _ _
      · rw [List.getD_eq_default _ _ (Nat.le_of_not_lt hlt)]
        exact fun he => hc he.symm
    simp only [scanUntilCharIter, if_neg hne]
    rw [ih (idx + 1) (not_mem_drop_succ h) hc]
    omega

/-- Under the same hypotheses the fuelled rendering of `scan_until(char)`
finds no stopping index for any amount of fuel. -/
theorem scanUntilCharIdx_none :
    ∀ (text : List Char) (c : Char) (fuel idx : Nat),
      c ∉ text.drop idx → c ≠ '\x00' →
      scanUntilCharIdx text c idx fuel = none := by
  intro text c fuel
  induction fuel with
  | zero => intro idx h hc; rfl
  | succ fuel ih =>
    intro idx h hc
    have hne : text.getD idx '\x00' ≠ c := by
      by_cases hlt : idx < text.length
      · rw [List.getD_eq_getElem _ _ hlt]
        intro he
        apply h
        rw [List.drop_eq_getElem_cons hlt, he]
        exact List.mem_cons_self _ _
      · rw [List.getD_eq_default _ _ (Nat.le_of_not_lt hlt)]
        exact fun he => hc he.symm
    simp only [scanUntilCharIdx, if_neg hne]
    exact ih (idx + 1) (not_mem_drop_succ h) hc

end Tokenizer

/-- C5: `scan_until(char c)` performs no bound check against end of input.
If `c` does not occur at or after the current index — including the '\0'
terminator position the C++ string keeps at `size()`, so `c ≠ '\0'` — then
(i) after n loop iterations the index is exactly idx + n, for every n: the
scan does not stop at end of input; (ii) in particular, within
text.length + 1 iterations the index passes the end of the buffer, so the
next condition check reads past it; (iii) the fuelled scan finds no
stopping point for any fuel — an unterminated scan never returns. -/
theorem scan_until_char_reads_past_end :
    (∀ (text : List Char) (c : Char) (idx n : Nat),
        c ∉ text.drop idx → c ≠ '\x00' →
        Tokenizer.scanUntilCharIter text c idx n = idx + n)
    ∧ (∀ (text : List Char) (c : Char) (idx : Nat),
        c ∉ text.drop idx → c ≠ '\x00' →
        text.length < Tokenizer.scanUntilCharIter text c idx (text.length + 1))
    ∧ (∀ (t : Tokenizer) (c : Char) (fuel : Nat),
        c ∉ t.text.drop t.idx → c ≠ '\x00' →
        t.scan_until_char c fuel = none) := by
  refine ⟨fun text c idx n h hc => Tokenizer.scanUntilCharIter_no_stop text c n idx h hc,
    fun text c idx h hc => ?_, fun t c fuel h hc => ?_⟩
  · rw [Tokenizer.scanUntilCharIter_no_stop text c (text.length + 1) idx h hc]
    omega
  · simp [Tokenizer.scan_until_char,
      Tokenizer.scanUntilCharIdx_none t.text c fuel t.idx h hc]

namespace Tokenizer

/-- Every character collected by the digit loop of `read_number` is a
digit. -/
theorem scanDigitsAux_all_digits (text : List Char) :
    ∀ (n i : Nat) (c : Char),
      c ∈ (scanDigitsAux text n i).1.data → is_digit c = true := by
  intro n
  induction n with
  | zero =>
    intro i c h
    simp [scanDigitsAux] at h
  | succ n ih =>
    intro i c h
    by_cases hd : is_digit (text.getD i '\x00') = true
    · simp only [scanDigitsAux, hd, if_true] at h
      rw [String.data_append] at h
      rcases List.mem_append.mp h with h1 | h1
      · have : c = text.getD i '\x00' := by simpa using h1
        rw [this]; exact hd
      · exact ih (i + 1) c h1
    · simp only [scanDigitsAux, hd] at h
      simp at h

/-- The digit run contains no decimal point. -/
theorem scanDigits_count_dot (text : List Char) (i : Nat) :
    (scanDigits text i).1.data.count '.' = 0 := by
  rw [List.count_eq_zero]
  intro hmem
  have := scanDigitsAux_all_digits text _ _ _ hmem
  exact absurd this (by decide)

end Tokenizer

/-- C6 (amended): for every tokenizer position, `read_number` produces a
fractional token exactly when the digit run is immediately followed by a
'.' — whether or not any digit follows the dot; otherwise it produces an
integer token; a fractional payload contains exactly one decimal point and
an integer payload none; and every payload character is a digit or the
dot, so there is no sign and no exponent. -/
theorem read_number_fractional_iff_dot :
    ∀ (t : Tokenizer),
      (((Tokenizer.read_number t).1.ty = .FractionalType)
          ↔ t.text.getD (Tokenizer.scanDigits t.text t.idx).2 '\x00' = '.')
      ∧ ((Tokenizer.read_number t).1.ty = .FractionalType
          ∨ (Tokenizer.read_number t).1.ty = .IntType)
      ∧ ((Tokenizer.read_number t).1.value.data.count '.'
          = if (Tokenizer.read_number t).1.ty = .FractionalType then 1 else 0)
      ∧ (∀ c ∈ (Tokenizer.read_number t).1.value.data,
          is_digit c = true ∨ c = '.') := by
  intro t
  rcases hs : Tokenizer.scanDigits t.text t.idx with ⟨snum, j⟩
  have hsnum : snum = (Tokenizer.scanDigits t.text t.idx).1 := by rw [hs]
  dsimp only
  have hrn : Tokenizer.read_number t
      = if t.text.getD j '\x00' = '.' then
          (Token.Fractional (snum ++ "." ++ (Tokenizer.scanDigits t.text (j + 1)).1),
            (Tokenizer.scanDigits t.text (j + 1)).2)
        else (Token.Int snum, j) := by
    unfold Tokenizer.read_number
    rw [hs]
  by_cases hd : t.text.getD j '\x00' = '.'
  · rw [hrn, if_pos hd]
    dsimp only
    refine ⟨by simp only [Token.Fractional]
               constructor
               · intro _; simpa [List.getD_eq_getElem?_getD] using hd
               · intro _; trivial,
      Or.inl rfl, ?_, ?_⟩
    · simp only [Token.Fractional, if_pos rfl]
      rw [String.data_append, String.data_append, List.count_append,
        List.count_append, hsnum, Tokenizer.scanDigits_count_dot,
        Tokenizer.scanDigits_count_dot]
      rfl
    · intro c hc
      simp only [Token.Fractional] at hc
      rw [String.data_append, String.data_append] at hc
      rcases List.mem_append.mp hc with h1 | h1
      · rcases List.mem_append.mp h1 with h2 | h2
        · rw [hsnum] at h2
          exact Or.inl (Tokenizer.scanDigitsAux_all_digits _ _ _ _ h2)
        · refine Or.inr ?_
          simpa using h2
      · exact Or.inl (Tokenizer.scanDigitsAux_all_digits _ _ _ _ h1)
  · rw [hrn, if_neg hd]
    dsimp only
    refine ⟨by simp only [Token.Int]
               constructor
               · intro hcon; cases hcon
               · intro hcon
                 exact absurd (by simpa [List.getD_eq_getElem?_getD] using hcon) hd,
      Or.inr rfl, ?_, ?_⟩
    · simp only [Token.Int]
      rw [if_neg (by simp), hsnum]
      exact Tokenizer.scanDigits_count_dot t.text t.idx
    · intro c hc
      simp only [Token.Int] at hc
      rw [hsnum] at hc
      exact Or.inl (Tokenizer.scanDigitsAux_all_digits _ _ _ _ hc)

/-- C6 counterexample: at "12." the digit run is followed by '.' but by no
further digit, so the claim demands an integer token; `read_number`
produces the fractional token "12." nonetheless. -/
theorem read_number_accepts_trailing_dot :
    Tokenizer.read_number ⟨"12.".data, 0, 1⟩ = (Token.Fractional "12.", 3)
    ∧ is_digit ("12.".data.getD 3 '\x00') = false := ⟨rfl, rfl⟩

namespace Parser

/-- The Def case of `Parser::stmt`: whenever the next token is the `def`
keyword and the function definition parses, the parsed `Function` is added
to the module on top of the module stack and the statement result is NULL
— the definition contributes no statement to the enclosing block. -/
theorem stmt_def_registers_and_yields_no_statement
    (fuel : Nat) (st : ParserState) (f : Function) (st2 : ParserState)
    (hty : (ppeek st).1.ty = .DefType)
    (hfd : functiondef fuel (ppeek st).2 = .ok (f, st2)) :
    stmt (fuel + 1) st = .ok (none, add_function_top f st2) := by
  rcases hp : ppeek st with ⟨t, st1⟩
  rw [hp] at hty hfd
  dsimp only at hty hfd
  show (parserStep (parserFns fuel)).stmt st = _
  simp only [parserStep]
  rw [hp]
  dsimp only
  rw [hty]
  dsimp only
  rw [show (parserFns fuel).functiondef st1 = Except.ok (f, st2) from hfd]
  rfl

end Parser

/-- C7 (amended): a parsed function definition is registered in the
enclosing module's function set and contributes no statement to the block
in which it appears. The claim's example body `x;` is itself rejected
(bare expressions are not statements), so the concrete case uses
"{ def f(x) { x = x; } g(); }": f lands in the module's function set, and
main's block holds — as its sole statement — the user's braced block,
whose sole statement is the call g(). -/
theorem functiondefs_hoisted_to_module :
    (∀ (fuel : Nat) (st : ParserState) (f : Function) (st2 : ParserState),
        (Parser.ppeek st).1.ty = .DefType →
        Parser.functiondef fuel ((Parser.ppeek st).2) = .ok (f, st2) →
        Parser.stmt (fuel + 1) st = .ok (none, Parser.add_function_top f st2))
    ∧ Parser.parse_string "\x7b def f(x) \x7b x = x; \x7d g(); \x7d"
        = .ok ⟨some ⟨"bish_main", [], .Block [.Block [.FunctionCall "g" []]]⟩,
              [⟨"f", [.Variable "x" 0],
                .Block [.Assignment (.Variable "x" 0) (.Variable "x" 0)]⟩]⟩ :=
  ⟨Parser.stmt_def_registers_and_yields_no_statement, rfl⟩

/-- C7 counterexample: the claim's own example input is rejected outright —
its function body `x;` is a bare-expression statement, which
`Parser::otherstmt` aborts on — so no module (and no hoisted f, no sole
statement g()) results from it. -/
theorem hoisting_example_rejected :
    Parser.parse_string "\x7b def f(x) \x7b x; \x7d g(); \x7d"
      = .error "Unexpected token in statement." := rfl

/-- C8 (amended): equality is non-chainable and "x == y == z" is never
silently accepted: bare, it fails as a statement ("Unexpected token in
statement."); as an assignment's right-hand side the parser builds
Comparison(x, y), stops in front of the second '==' (index 7 of the
text), and the statement then fails with a grammar error there; `expr`
applies '==' at most once per invocation, though a nested Comparison can
still be built from explicitly parenthesized input. -/
theorem chained_equality_rejected :
    Parser.parse_string "x == y == z" = .error "Unexpected token in statement."
    ∧ Parser.parse_string "w = x == y == z;"
        = .error "Parsing error: Expected statement to end with ';' near character '=', line 1"
    ∧ (Parser.expr 50 ⟨⟨"x == y == z".data, 0, 1⟩, [⟨[]⟩], [], 0⟩).map (fun p => p.1)
        = .ok (.Comparison (.Variable "x" 0) (.Variable "y" 1))
    ∧ (Parser.expr 50 ⟨⟨"x == y == z".data, 0, 1⟩, [⟨[]⟩], [], 0⟩).map (fun p => p.2.tk.idx)
        = .ok 7
    ∧ "x == y == z".data.getD 7 '\x00' = '=' :=
  ⟨rfl, rfl, rfl, rfl, rfl⟩

/-- C8 counterexample: the claim's "never builds a nested Comparison" is
too strong — parenthesized input is accepted and produces one. -/
theorem parenthesized_nested_comparison_accepted :
    Parser.parse_string "w=(x==y)==z;"
      = .ok ⟨some ⟨"bish_main", [], .Block [.Assignment (.Variable "w" 0)
          (.Comparison (.Comparison (.Variable "x" 1) (.Variable "y" 2))
            (.Variable "z" 3))]⟩, []⟩ := rfl

/-- C9: every failed `expect` check is fatal — it yields the error value
"Parsing error: <expected condition> near character 'c', line n" built
from the offending character and current line, and no partial module —
and concretely "if (1 { }" fails with the closing-parenthesis error at the
offending '{' with the correct line number (line 1, or line 2 when a
newline precedes the statement). -/
theorem expect_failures_fatal_with_position :
    (∀ (t : Token) (ty : TokenType) (msg : String) (st : ParserState),
        t.isa ty = false →
        Parser.expect t ty msg st
          = .error ("Parsing error: " ++ msg ++ " near " ++ st.tk.position))
    ∧ Parser.parse_string "if (1 \x7b \x7d"
        = .error "Parsing error: Expected closing ')' near character '\x7b', line 1"
    ∧ Parser.parse_string "\nif (1 \x7b \x7d"
        = .error "Parsing error: Expected closing ')' near character '\x7b', line 2" := by
  refine ⟨fun t ty msg st h => ?_, rfl, rfl⟩
  simp [Parser.expect, h]

namespace Tokenizer

/-- `skip_whitespace` moves nothing when the current character is not
whitespace. -/
theorem skipWSAux_id (t : Tokenizer) (h : is_whitespace t.curchar = false) :
    ∀ n, skipWSAux n t = t := by
  intro n
  cases n with
  | zero => rfl
  | succ n => simp [skipWSAux, h]

/-- The alphanumeric loop of `read_symbol` collects nothing when the
current character is not alphanumeric. -/
theorem scanAlnumAux_stop (text : List Char) (i : Nat)
    (h : is_alphanumeric (text.getD i '\x00') = false) :
    ∀ n, scanAlnumAux text n i = ("", i) := by
  intro n
  cases n with
  | zero => rfl
  | succ n =>
    simp only [scanAlnumAux, h]
    simp

end Tokenizer

/-- The characters of C10: within the text, not whitespace, not one of the
single-character token characters, not a digit and not a letter. -/
def stuck_char (c : Char) : Prop :=
  is_whitespace c = false ∧ is_alphanumeric c = false ∧
  c ∉ (['(', ')', '\x7b', '\x7d', '@', '$', '#', ';', ',', '=', '+', '-', '*', '/', '"'] :
        List Char)

namespace Tokenizer

/-- At a stuck character, `get_token` falls through every branch to
`read_symbol`, which collects the empty run: the token is Symbol("") and
the new index equals the old one. -/
theorem get_token_stuck (t : Tokenizer) (hlt : t.idx < t.text.length)
    (hs : stuck_char (t.text.getD t.idx '\x00')) :
    get_token t = ((Token.Symbol "", t.idx), t) := by
  obtain ⟨hw, ha, hmem⟩ := hs
  have hcw : is_whitespace t.curchar = false := hw
  have hskip : t.skip_whitespace = t := skipWSAux_id t hcw _
  have heos : t.eos = false := by
    simp [eos]
    omega
  simp only [List.mem_cons, List.not_mem_nil, or_false, not_or] at hmem
  obtain ⟨e1, e2, e3, e4, e5, e6, e7, e8, e9, e10, e11, e12, e13, e14, e15⟩ := hmem
  have hdig : is_digit t.curchar = false := by
    have := ha
    simp only [is_alphanumeric, Bool.or_eq_false_iff] at this
    exact this.1.1
  have halnum : is_alphanumeric (t.text.getD t.idx '\x00') = false := ha
  simp only [get_token, hskip]
  simp [curchar] at e1 e2 e3 e4 e5 e6 e7 e8 e9 e10 e11 e12 e13 e14 e15 hdig ⊢
  simp [heos, e1, e2, e3, e4, e5, e6, e7, e8, e9, e10, e11, e12, e13, e14, e15, hdig,
    read_symbol, scanAlnum, scanAlnumAux_stop t.text t.idx halnum,
    get_multichar_token, Token.Symbol, Token.If, Token.Def]

/-- At a stuck character `next()` makes no progress: the tokenizer state is
a fixed point. -/
theorem next_stuck (t : Tokenizer) (hlt : t.idx < t.text.length)
    (hs : stuck_char (t.text.getD t.idx '\x00')) : t.next = t := by
  unfold next
  rw [get_token_stuck t hlt hs]

/-- At a stuck character `peek()` returns the empty Symbol token and leaves
the state unchanged. -/
theorem peek_stuck (t : Tokenizer) (hlt : t.idx < t.text.length)
    (hs : stuck_char (t.text.getD t.idx '\x00')) : t.peek = (Token.Symbol "", t) := by
  unfold peek
  rw [get_token_stuck t hlt hs]

/-- The `scan_until(type)` loop at a stuck character never stops, for any
amount of fuel, as long as the stop type is not SymbolType. -/
theorem scanUntilTypeGo_stuck (t : Tokenizer) (hlt : t.idx < t.text.length)
    (hs : stuck_char (t.text.getD t.idx '\x00'))
    (ty : TokenType) (hty : ty ≠ .SymbolType) :
    ∀ fuel, scanUntilTypeGo ty fuel t = none := by
  intro fuel
  induction fuel with
  | zero => rfl
  | succ fuel ih =>
    have hisa : (Token.Symbol "").isa ty = false := by
      simp only [Token.isa, Token.Symbol, decide_eq_false_iff_not]
      exact fun he => hty he.symm
    have heos : t.eos = false := by
      simp [eos]
      omega
    simp only [scanUntilTypeGo, peek_stuck t hlt hs]
    rw [if_pos ⟨by simp [hisa], by simp [heos]⟩, next_stuck t hlt hs]
    exact ih

/-- The two-type `scan_until` loop at a stuck character never stops either,
as long as neither stop type is SymbolType. -/
theorem scanUntilTwoGo_stuck (t : Tokenizer) (hlt : t.idx < t.text.length)
    (hs : stuck_char (t.text.getD t.idx '\x00'))
    (ta tb : TokenType) (hta : ta ≠ .SymbolType) (htb : tb ≠ .SymbolType) :
    ∀ fuel, scanUntilTwoGo ta tb fuel t = none := by
  intro fuel
  induction fuel with
  | zero => rfl
  | succ fuel ih =>
    have hisa : (Token.Symbol "").isa ta = false := by
      simp only [Token.isa, Token.Symbol, decide_eq_false_iff_not]
      exact fun he => hta he.symm
    have hisb : (Token.Symbol "").isa tb = false := by
      simp only [Token.isa, Token.Symbol, decide_eq_false_iff_not]
      exact fun he => htb he.symm
    have heos : t.eos = false := by
      simp [eos]
      omega
    simp only [scanUntilTwoGo, peek_stuck t hlt hs]
    rw [if_pos ⟨by simp [hisa, hisb], by simp [heos]⟩, next_stuck t hlt hs]
    exact ih

end Tokenizer

/-- C10 (amended): at a character that is not whitespace, not a
single-character token character, not a digit and not a letter (such as
'%'), the tokenizer returns Symbol("") with an unchanged index, so next()
makes no progress; consequently the peek/next-driven scan_until loops with
a stop type other than SymbolType never advance and do not terminate for
any fuel (so a quoted string or an embedded-command body containing such a
character hangs the parse); the parser's statement loop, however, does not
hang there: symbol() accepts the empty Symbol token and otherstmt then
aborts with "Unexpected token in statement.". -/
theorem stuck_char_scan_until_hangs :
    (∀ t : Tokenizer, t.idx < t.text.length → stuck_char (t.text.getD t.idx '\x00') →
        Tokenizer.get_token t = ((Token.Symbol "", t.idx), t) ∧ t.next = t)
    ∧ (∀ t : Tokenizer, t.idx < t.text.length → stuck_char (t.text.getD t.idx '\x00') →
        ∀ ty : TokenType, ty ≠ .SymbolType →
        ∀ fuel, t.scan_until_type ty fuel = none)
    ∧ (∀ t : Tokenizer, t.idx < t.text.length → stuck_char (t.text.getD t.idx '\x00') →
        ∀ ta tb : TokenType, ta ≠ .SymbolType → tb ≠ .SymbolType →
        ∀ fuel, t.scan_until_two ta tb fuel = none)
    ∧ Parser.parse_string "x=\"ab%cd\";" = .error Parser.scan_hang_msg := by
  refine ⟨fun t hlt hs => ⟨Tokenizer.get_token_stuck t hlt hs,
      Tokenizer.next_stuck t hlt hs⟩,
    fun t hlt hs ty hty fuel => ?_,
    fun t hlt hs ta tb hta htb fuel => ?_, rfl⟩
  · simp [Tokenizer.scan_until_type,
      Tokenizer.scanUntilTypeGo_stuck t hlt hs ty hty fuel]
  · simp [Tokenizer.scan_until_two,
      Tokenizer.scanUntilTwoGo_stuck t hlt hs ta tb hta htb fuel]

/-- C10 counterexample: at the stuck character '%' the parser's statement
loop does not fail to terminate — symbol() accepts the empty Symbol token
and otherstmt aborts the parse with a plain error, not with the model's
fuel-exhaustion marker. -/
theorem stuck_char_statement_loop_aborts :
    Parser.parse_string "%" = .error "Unexpected token in statement." := rfl

end Bish
